import Mathlib

/-!
Verification development for the asset-to-entry reconciliation pipeline:
the keyword matching engine, the endpoint resolver, the asset lookup,
the entry-update executor and the mapping document round trip. The
TypeScript sources are embedded as executable Lean definitions; JavaScript
numbers are modelled as rationals and JavaScript strings as Lean strings,
with the string primitives (toLowerCase, split, includes, trim, basename)
re-implemented structurally so that they compute.
-/

/-- JavaScript string fallback `a || b` restricted to strings: the empty
string is falsy, every other string is truthy. -/
def jsOr (a b : String) : String := if a = "" then b else a

/-- JavaScript `(x || b)` where `x` is an optional string (absent or
falsy selects the fallback). -/
def jsOrO (a : Option String) (b : String) : String := jsOr (a.getD "") b

/-- `s.toLowerCase()` (ASCII case folding, as used by the scripts). -/
def toLowerCase (s : String) : String := String.mk (s.toList.map Char.toLower)

/-- All suffixes of a character list, longest first. -/
def suffixes : List Char → List (List Char)
  | [] => [[]]
  | c :: rest => (c :: rest) :: suffixes rest

/-- JavaScript `s.includes(sub)`: substring containment. -/
def strIncludes (s sub : String) : Bool :=
  (suffixes s.toList).any (fun t => sub.toList.isPrefixOf t)

/-- JavaScript `s.substring(0, n)`. -/
def strTake (n : Nat) (s : String) : String := String.mk (s.toList.take n)

/-- Worker for `splitWs`: state machine over the characters, `inWs` is
true while a whitespace run is being skipped. -/
def splitWsGo (inWs : Bool) (acc : List Char) : List Char → List String
  | [] => [String.mk acc.reverse]
  | c :: rest =>
    if c.isWhitespace then
      if inWs then splitWsGo true [] rest
      else String.mk acc.reverse :: splitWsGo true [] rest
    else splitWsGo false (c :: acc) rest

/-- JavaScript `s.split(/\s+/)`: split on maximal whitespace runs
(leading and trailing runs produce empty tokens, as in JavaScript). -/
def splitWs (s : String) : List String := splitWsGo false [] s.toList

/-- Worker for `splitChar`. -/
def splitCharAux (sep : Char) : List Char → List Char → List String
  | [], acc => [String.mk acc.reverse]
  | c :: rest, acc =>
    if c == sep then String.mk acc.reverse :: splitCharAux sep rest []
    else splitCharAux sep rest (c :: acc)

/-- JavaScript `s.split(sep)` for a one-character separator: split at
every occurrence (adjacent separators give empty tokens). -/
def splitChar (sep : Char) (s : String) : List String := splitCharAux sep s.toList []

/-- JavaScript global replacement of every hyphen by the empty string. -/
def removeHyphens (s : String) : String := String.mk (s.toList.filter (fun c => !(c == '-')))

/-- `s.trim()`. -/
def trimStr (s : String) : String :=
  String.mk (((s.toList.dropWhile Char.isWhitespace).reverse.dropWhile Char.isWhitespace).reverse)

/-- Node `path.basename(p)`: the part after the last slash. -/
def baseName (p : String) : String :=
  String.mk ((p.toList.reverse.takeWhile (fun c => !(c == '/'))).reverse)

/-- Node extension stripping as in `path.basename(p, path.extname(p))`:
remove the suffix starting at the last dot, provided that dot is not the
first character of the base name. -/
def stripExt (bn : String) : String :=
  let cs := bn.toList
  if (cs.drop 1).contains '.' then
    String.mk (((cs.reverse.dropWhile (fun c => !(c == '.'))).drop 1).reverse)
  else bn

/-- The file name the matcher works on:
`path.basename(imagePath, path.extname(imagePath))`. -/
def fileNameOf (p : String) : String := stripExt (baseName p)

/-- JavaScript `s.replace(/\.[^/.]+$/, '')` as used by the asset lookup:
drop a final dot-extension whose text is non-empty and contains neither a
dot nor a slash. -/
def stripExtRegex (s : String) : String :=
  let rev := s.toList.reverse
  let ext := rev.takeWhile (fun c => !(c == '.') && !(c == '/'))
  match rev.drop ext.length with
  | '.' :: rest => if ext.isEmpty then s else String.mk rest.reverse
  | _ => s

/-! ## Matching engine (matchImageByFilename, matchImageWithAI and the
per-image step of run() from the mapping script) -/

/-- A remote entry as read by the mapping script: `_id`, `_name` and the
optional `fields.name.value`. -/
structure UniformEntry where
  _id : String
  _name : String
  fieldsName : Option String
deriving DecidableEq

/-- `entry.fields.name?.value || entry._name || ''`. -/
def productName (e : UniformEntry) : String := jsOr (e.fieldsName.getD "") e._name

/-- The `method` tag of a match result; the source literals are
`filename` (the spec calls it keyword), `ai` (the spec calls it
semantic) and `manual`. -/
inductive MatchMethod where
  | filename
  | ai
  | manual
deriving DecidableEq

/-- The `ImageMatch` record produced by the matcher. -/
structure ImageMatch where
  imagePath : String
  entryId : String
  entryName : String
  confidence : ℚ
  method : MatchMethod
deriving DecidableEq

/-- Keywords of the product name: `productNameLower.split(/\s+/)`. -/
def productKeywords (e : UniformEntry) : List String :=
  splitWs (toLowerCase (productName e))

/-- One keyword hit: the lowercased file name contains the keyword, or
the keyword is longer than 3 characters and the file name contains its
first three characters. -/
def keywordHit (fileNameLower kw : String) : Bool :=
  strIncludes fileNameLower kw ||
    (decide (3 < kw.length) && strIncludes fileNameLower (strTake 3 kw))

/-- `matchScore`: how many product-name keywords hit the file name. -/
def matchScore (fileNameLower : String) (e : UniformEntry) : Nat :=
  ((productKeywords e).filter (keywordHit fileNameLower)).length

/-- `fileNameKeywords`: hyphen tokens of the lowercased file name that
are longer than 2 characters. -/
def fileNameKeywords (fileNameLower : String) : List String :=
  (splitChar '-' fileNameLower).filter (fun k => 2 < k.length)

/-- `reverseMatchScore`: how many file-name keywords the lowercased
product name contains. -/
def reverseMatchScore (fileNameLower : String) (e : UniformEntry) : Nat :=
  ((fileNameKeywords fileNameLower).filter
    (fun kw => strIncludes (toLowerCase (productName e)) kw)).length

/-- The loop body of `matchImageByFilename` for one entry: accept on
record coverage strictly above 0.3, otherwise on file-name coverage
strictly above 0.4, otherwise move on. -/
def matchEntry (imagePath fileNameLower : String) (e : UniformEntry) : Option ImageMatch :=
  if 0 < matchScore fileNameLower e ∧
      (3 : ℚ) / 10 <
        (matchScore fileNameLower e : ℚ) / ((productKeywords e).length : ℚ) then
    some ⟨imagePath, e._id, productName e,
      (matchScore fileNameLower e : ℚ) / ((productKeywords e).length : ℚ),
      MatchMethod.filename⟩
  else if 0 < reverseMatchScore fileNameLower e ∧
      0 < (fileNameKeywords fileNameLower).length ∧
      (2 : ℚ) / 5 <
        (reverseMatchScore fileNameLower e : ℚ) / ((fileNameKeywords fileNameLower).length : ℚ) then
    some ⟨imagePath, e._id, productName e,
      (reverseMatchScore fileNameLower e : ℚ) / ((fileNameKeywords fileNameLower).length : ℚ),
      MatchMethod.filename⟩
  else none

/-- The `for (const entry of entries)` scan: first accepted entry wins. -/
def scanEntries (imagePath fileNameLower : String) : List UniformEntry → Option ImageMatch
  | [] => none
  | e :: rest =>
    match matchEntry imagePath fileNameLower e with
    | some m => some m
    | none => scanEntries imagePath fileNameLower rest

/-- `matchImageByFilename(imagePath, entries)`. -/
def matchImageByFilename (imagePath : String) (entries : List UniformEntry) : Option ImageMatch :=
  scanEntries imagePath (toLowerCase (fileNameOf imagePath)) entries

/-- A local image file as listed by the catalog loader (path, base name,
size in bytes); the matcher never reads the file contents. -/
structure ImageFile where
  path : String
  name : String
  size : Nat
deriving DecidableEq

/-- Matching as invoked per image file by the pipeline: only the path
string of the file is consulted. -/
def matchImageFile (f : ImageFile) (entries : List UniformEntry) : Option ImageMatch :=
  matchImageByFilename f.path entries

/-- The fields of a match result other than the stored image path. -/
def dropPath (m : ImageMatch) : String × String × ℚ × MatchMethod :=
  (m.entryId, m.entryName, m.confidence, m.method)

/-- `matchImageWithAI`: the semantic matcher. `hasKey` is the presence of
the OpenAI credential; `resp` is the trimmed-down network effect: `none`
for a failed call, a transport error or a missing message, and
`some content` for the returned message content. Returns the matched
product name with fixed confidence 0.8, or nothing. -/
def matchImageWithAI (hasKey : Bool) (resp : Option String)
    (productNames : List String) : Option (String × ℚ) :=
  if hasKey then
    match resp with
    | some content =>
      let matchedName := toLowerCase (trimStr content)
      if matchedName == "" || matchedName == "none" then none
      else
        match productNames.find?
            (fun nm => strIncludes (toLowerCase nm) matchedName ||
              strIncludes matchedName (toLowerCase nm)) with
        | some bestMatch => some (bestMatch, (8 : ℚ) / 10)
        | none => none
    | none => none
  else none

/-- The entry lookup run() performs on the AI result. -/
def findEntryByName (entries : List UniformEntry) (nm : String) : Option UniformEntry :=
  entries.find? (fun e => toLowerCase (productName e) == toLowerCase nm)

/-- The semantic half of the per-image step of run(): when the
credential is present, ask the semantic matcher and look the returned
name up among the entries; tag the result `ai`. -/
def aiMatchOf (imagePath : String) (entries : List UniformEntry)
    (hasKey : Bool) (resp : Option String) : Option ImageMatch :=
  if hasKey then
    match matchImageWithAI hasKey resp (entries.map productName) with
    | some (nm, conf) =>
      match findEntryByName entries nm with
      | some entry => some ⟨imagePath, entry._id, nm, conf, MatchMethod.ai⟩
      | none => none
    | none => none
  else none

/-- The per-image matching step of run(): the semantic matcher is
consulted first when configured, its hit short-circuits the keyword
matcher; otherwise the keyword matcher decides. -/
def matchStep (imagePath : String) (entries : List UniformEntry)
    (hasKey : Bool) (resp : Option String) : Option ImageMatch :=
  match aiMatchOf imagePath entries hasKey resp with
  | some m => some m
  | none => matchImageByFilename imagePath entries

/-! ## Endpoint resolver: the candidate loop shared by getProductEntries,
getEntry, testUniformAPI and the update loop. `net url` is `none` when the
request throws or returns a non-success status, `some d` when it returns
success with body `d`. -/

/-- The endpoint candidate loop: try the URLs in order, keep the first
success together with the URL that produced it. -/
def resolveFirst {α : Type} (net : String → Option α) : List String → Option (String × α)
  | [] => none
  | u :: rest =>
    match net u with
    | some d => some (u, d)
    | none => resolveFirst net rest

/-- The URLs the loop actually requests: every candidate up to and
including the first success. -/
def probedUrls {α : Type} (net : String → Option α) : List String → List String
  | [] => []
  | u :: rest =>
    u :: (match net u with
      | some _ => []
      | none => probedUrls net rest)

/-- The four entries-endpoint candidates built by the scripts. -/
def entriesEndpointPatterns (apiBase apiHost projectId : String) : List String :=
  [apiBase ++ "/v1/projects/" ++ projectId ++ "/entries",
   apiHost ++ "/api/v1/projects/" ++ projectId ++ "/entries",
   apiBase ++ "/projects/" ++ projectId ++ "/entries",
   apiHost ++ "/api/projects/" ++ projectId ++ "/entries"]

/-! ## JSON documents and the mapping store -/

/-- A JSON document tree, the shape JSON.stringify writes and JSON.parse
reads back. -/
inductive Json where
  | null
  | str (s : String)
  | num (n : Int)
  | bool (b : Bool)
  | arr (xs : List Json)
  | obj (fields : List (String × Json))

/-- One element of the `images` array of image-mapping.json. -/
structure ImageMapping where
  filename : String
  path : String
  size : Nat
  suggestedProduct : Option String
  entryId : Option String
deriving DecidableEq

/-- The whole mapping document: the candidate list plus the static
instruction strings. -/
structure MappingDoc where
  images : List ImageMapping
  instructions : List String
deriving DecidableEq

/-- Property access `obj[k]` on a parsed JSON object. -/
def lookupField (fs : List (String × Json)) (k : String) : Option Json :=
  match fs.find? (fun p => p.1 == k) with
  | some p => some p.2
  | none => none

/-- A nullable string as written into the document. -/
def encodeOptStr : Option String → Json
  | none => Json.null
  | some s => Json.str s

/-- Read back a nullable string. -/
def decodeOptStr : Json → Option (Option String)
  | Json.null => some none
  | Json.str s => some (some s)
  | _ => none

/-- Read back a plain string. -/
def decodeStr : Json → Option String
  | Json.str s => some s
  | _ => none

/-- What the mapping script writes for one image (field order as in the
source: filename, path, size, suggestedProduct, entryId). -/
def encodeImage (m : ImageMapping) : Json :=
  Json.obj [("filename", Json.str m.filename),
            ("path", Json.str m.path),
            ("size", Json.num (Int.ofNat m.size)),
            ("suggestedProduct", encodeOptStr m.suggestedProduct),
            ("entryId", encodeOptStr m.entryId)]

/-- Reading one image record back from the parsed document. -/
def decodeImage (j : Json) : Option ImageMapping :=
  match j with
  | Json.obj fs =>
    match lookupField fs "filename" with
    | some (Json.str filename) =>
      match lookupField fs "path" with
      | some (Json.str path) =>
        match lookupField fs "size" with
        | some (Json.num (Int.ofNat size)) =>
          match lookupField fs "suggestedProduct" with
          | some sj =>
            match decodeOptStr sj with
            | some suggested =>
              match lookupField fs "entryId" with
              | some ej =>
                match decodeOptStr ej with
                | some eid => some ⟨filename, path, size, suggested, eid⟩
                | none => none
              | none => none
            | none => none
          | none => none
        | _ => none
      | _ => none
    | _ => none
  | _ => none

/-- Decode every element of a JSON array, failing if any element fails. -/
def mapMO {α : Type} (dec : Json → Option α) : List Json → Option (List α)
  | [] => some []
  | j :: js =>
    match dec j with
    | some a => (mapMO dec js).map (fun as => a :: as)
    | none => none

/-- `save`: the JSON document the mapping script writes. -/
def encodeMappingDoc (d : MappingDoc) : Json :=
  Json.obj [("images", Json.arr (d.images.map encodeImage)),
            ("instructions", Json.arr (d.instructions.map Json.str))]

/-- `load`: the structure the update script reads back from the parsed
document. -/
def decodeMappingDoc (j : Json) : Option MappingDoc :=
  match j with
  | Json.obj fs =>
    match lookupField fs "images" with
    | some (Json.arr ijs) =>
      match mapMO decodeImage ijs with
      | some images =>
        match lookupField fs "instructions" with
        | some (Json.arr sjs) =>
          match mapMO decodeStr sjs with
          | some instructions => some ⟨images, instructions⟩
          | none => none
        | _ => none
      | none => none
    | _ => none
  | _ => none

/-! ## Asset lookup (findAssetByFilename of the update script): local
mirror first, then the remote asset list over the endpoint candidates. -/

/-- The result type `AssetInfo` (url is the empty string when absent). -/
structure AssetInfo where
  id : String
  filename : String
  url : String
deriving DecidableEq

/-- A parsed local asset descriptor from uniform-data/asset: `idRaw` is
`asset._id` (empty when missing), `fileBase` the yaml file base name used
as fallback id, `title` is `asset.fields.title.value` (empty when
missing) and `url` is `asset.fields.url.value`. Files that fail to parse
or have no `asset` key are skipped by the source and are therefore not in
the list. -/
structure AssetDescriptor where
  idRaw : String
  fileBase : String
  title : String
  url : String
deriving DecidableEq

/-- The local-mirror test for one descriptor: exact normalized title
match (optionally ignoring hyphens), else at least half of the long
hyphen tokens overlapping. -/
def assetMatchLocal (filename : String) (a : AssetDescriptor) : Option AssetInfo :=
  if a.title = "" then none
  else
    let filenameBase := stripExtRegex (toLowerCase filename)
    let assetTitleLower := stripExtRegex (toLowerCase a.title)
    if filenameBase = assetTitleLower ∨
        removeHyphens filenameBase = removeHyphens assetTitleLower then
      some ⟨jsOr a.idRaw a.fileBase, a.title, a.url⟩
    else
      let filenameParts := (splitChar '-' filenameBase).filter (fun p => 2 < p.length)
      let assetParts := (splitChar '-' assetTitleLower).filter (fun p => 2 < p.length)
      let matchingParts := (filenameParts.filter
        (fun fp => assetParts.any (fun ap => strIncludes ap fp || strIncludes fp ap))).length
      if 0 < matchingParts ∧
          (1 : ℚ) / 2 ≤ (matchingParts : ℚ) / ((max filenameParts.length assetParts.length : Nat) : ℚ) then
        some ⟨jsOr a.idRaw a.fileBase, a.title, a.url⟩
      else none

/-- Scan the local mirror in file order, first hit wins. -/
def localFind (mirror : List AssetDescriptor) (filename : String) : Option AssetInfo :=
  match mirror with
  | [] => none
  | a :: rest =>
    match assetMatchLocal filename a with
    | some info => some info
    | none => localFind rest filename

/-- A remote asset as returned by the list-assets call; each field is the
empty string when the corresponding JSON property is absent. -/
structure RemoteAsset where
  filenameF : String
  nameF : String
  titleF : String
  title2F : String
  idF : String
  id2F : String
  id3F : String
  urlF : String
  urlFieldF : String
deriving DecidableEq

/-- `asset.filename || asset.name || asset.fields?.title?.value || asset.title || ''`. -/
def remoteAssetFilename (a : RemoteAsset) : String :=
  jsOr a.filenameF (jsOr a.nameF (jsOr a.titleF (jsOr a.title2F "")))

/-- The remote matching heuristic of findAssetByFilename. -/
def remoteMatches (filename : String) (a : RemoteAsset) : Bool :=
  strIncludes (toLowerCase (remoteAssetFilename a)) (stripExtRegex (toLowerCase filename)) ||
    strIncludes (toLowerCase filename) (toLowerCase (remoteAssetFilename a))

/-- The remote fallback: probe each assets endpoint candidate in order; a
successful response whose asset list contains a match ends the search,
otherwise the next candidate is tried. -/
def remoteFind (net : String → Option (List RemoteAsset)) (filename : String) :
    List String → Option AssetInfo
  | [] => none
  | u :: rest =>
    match net u with
    | none => remoteFind net filename rest
    | some assets =>
      match assets.find? (remoteMatches filename) with
      | some a => some ⟨jsOr a.idF (jsOr a.id2F (jsOr a.id3F "")),
                        jsOr a.filenameF (jsOr a.nameF filename),
                        jsOr a.urlF (jsOr a.urlFieldF "")⟩
      | none => remoteFind net filename rest

/-- `findAssetByFilename`: local mirror first, then the remote asset
list; `none` when both fail (the source has no upload fallback here). -/
def findAssetByFilename (mirror : List AssetDescriptor)
    (net : String → Option (List RemoteAsset)) (assetEndpointPatterns : List String)
    (filename : String) : Option AssetInfo :=
  match localFind mirror filename with
  | some a => some a
  | none => remoteFind net filename assetEndpointPatterns

/-! ## Entry update executor (updateEntryWithAsset): three payload
shapes, four endpoint candidates, first success wins, error carries the
last observed status or error text. -/

/-- The response of one PUT attempt: success, or the recorded error
string (a status-and-text line, or the thrown message). -/
inductive UpdResp where
  | ok
  | fail (msg : String)
deriving DecidableEq

/-- The error text an attempt records into `lastError`. -/
def errText : UpdResp → String
  | UpdResp.ok => ""
  | UpdResp.fail m => m

/-- The asset reference value written into the `image` field. -/
def imageFieldJson (assetId locale : String) : Json :=
  Json.obj [("type", Json.str "asset"),
            ("locales", Json.obj [(locale,
              Json.arr [Json.obj [("_id", Json.str assetId),
                                  ("type", Json.str "image"),
                                  ("_source", Json.str "uniform-assets")]])])]

/-- JavaScript object spread with one overriding key: the key keeps its
position when already present, otherwise it is appended. -/
def setKey (fs : List (String × Json)) (k : String) (v : Json) : List (String × Json) :=
  if fs.any (fun p => p.1 == k) then
    fs.map (fun p => if p.1 == k then (k, v) else p)
  else fs ++ [(k, v)]

/-- Payload format 1: full entry structure (spread of the fetched fields
with the image field merged in). -/
def payloadFull (entryFields : List (String × Json)) (assetId locale : String) : Json :=
  Json.obj [("fields", Json.obj (setKey entryFields "image" (imageFieldJson assetId locale)))]

/-- Payload format 2: minimal structure (the bare image field). -/
def payloadBare (assetId locale : String) : Json :=
  Json.obj [("image", imageFieldJson assetId locale)]

/-- Payload format 3: direct field update. -/
def payloadMinimal (assetId locale : String) : Json :=
  Json.obj [("fields", Json.obj [("image", imageFieldJson assetId locale)])]

/-- The ordered payload-shape attempts of updateEntryWithAsset. -/
def updatePayloads (entryFields : List (String × Json)) (assetId locale : String) : List Json :=
  [payloadFull entryFields assetId locale,
   payloadBare assetId locale,
   payloadMinimal assetId locale]

/-- The inner endpoint loop for one payload: returns the success flag and
the threaded `lastError`. -/
def tryEndpoints (send : Json → String → UpdResp) (p : Json) :
    List String → String → Bool × String
  | [], lastError => (false, lastError)
  | u :: rest, lastError =>
    match send p u with
    | UpdResp.ok => (true, lastError)
    | UpdResp.fail m => tryEndpoints send p rest m

/-- The outer payload loop: stops at the first payload whose endpoint
loop succeeded. -/
def tryPayloads (send : Json → String → UpdResp) :
    List Json → List String → String → Bool × String
  | [], _, lastError => (false, lastError)
  | p :: ps, urls, lastError =>
    let r := tryEndpoints send p urls lastError
    if r.1 then (true, r.2) else tryPayloads send ps urls r.2

/-- `updateEntryWithAsset`: build the payload candidates, run the two
loops, and throw with the last observed error when nothing succeeded. -/
def updateEntryWithAsset (send : Json → String → UpdResp) (entryId assetId locale : String)
    (entryFields : List (String × Json)) (urls : List String) : Except String Unit :=
  let r := tryPayloads send (updatePayloads entryFields assetId locale) urls ""
  if r.1 then Except.ok ()
  else Except.error ("Failed to update entry " ++ entryId ++ " with asset " ++ assetId ++
    ". Last error: " ++ r.2)

/-- The (payload, endpoint) pairs in the order the nested loops visit
them. -/
def allCombos : List Json → List String → List (Json × String)
  | [], _ => []
  | p :: ps, urls => urls.map (fun u => (p, u)) ++ allCombos ps urls

/-- The attempts the inner loop actually issues for one payload. -/
def attemptedEndpoints (send : Json → String → UpdResp) (p : Json) :
    List String → List (Json × String)
  | [] => []
  | u :: rest =>
    (p, u) :: (match send p u with
      | UpdResp.ok => []
      | UpdResp.fail _ => attemptedEndpoints send p rest)

/-- Whether an attempt succeeded. -/
def isOkB : UpdResp → Bool
  | UpdResp.ok => true
  | UpdResp.fail _ => false

/-- Whether some endpoint accepts the payload. -/
def anyOk (send : Json → String → UpdResp) (p : Json) (urls : List String) : Bool :=
  urls.any (fun u => isOkB (send p u))

/-- The attempts the nested loops actually issue. -/
def attemptedCombos (send : Json → String → UpdResp) :
    List Json → List String → List (Json × String)
  | [], _ => []
  | p :: ps, urls =>
    attemptedEndpoints send p urls ++
      (if anyOk send p urls then [] else attemptedCombos send ps urls)

/-- A candidate list cut off just after its first success. -/
def upToFirstOk (send : Json → String → UpdResp) :
    List (Json × String) → List (Json × String)
  | [] => []
  | c :: rest =>
    c :: (match send c.1 c.2 with
      | UpdResp.ok => []
      | UpdResp.fail _ => upToFirstOk send rest)

/-! ## Batch processing (processMappings of the update script) -/

/-- One recorded per-item failure. -/
structure ErrRec where
  entry : String
  filename : String
  error : String
deriving DecidableEq

/-- The final tallies of a processMappings run. -/
structure Report where
  successCount : Nat
  errorCount : Nat
  errors : List ErrRec
deriving DecidableEq

/-- JavaScript truthiness of a nullable string. -/
def jsTruthy : Option String → Bool
  | none => false
  | some s => !(s == "")

/-- Insert one mapping into the entry groups, preserving first-occurrence
key order. -/
def addToGroups (gs : List (String × List ImageMapping)) (k : String) (m : ImageMapping) :
    List (String × List ImageMapping) :=
  match gs with
  | [] => [(k, [m])]
  | (k2, l) :: rest =>
    if k2 == k then (k2, l ++ [m]) :: rest
    else (k2, l) :: addToGroups rest k m

/-- The `entryGroups` record built by processMappings: mappings with a
truthy entryId, grouped by entryId in first-occurrence order. -/
def entryGroups (ms : List ImageMapping) : List (String × List ImageMapping) :=
  (ms.filter (fun m => jsTruthy m.entryId)).foldl
    (fun gs m =>
      match m.entryId with
      | some k => if !(k == "") then addToGroups gs k m else gs
      | none => gs) []

/-- Processing of one entry group: the first image is used; a missing
asset or a rejected update yields the recorded per-item error, success
yields nothing. `findAsset` and `upd` are the two remote effects. -/
def processOne (findAsset : String → Option AssetInfo)
    (upd : String → String → Except String Unit)
    (entryId : String) (images : List ImageMapping) : Option ErrRec :=
  match images with
  | [] => none
  | image :: _ =>
    let productTitle := jsOrO image.suggestedProduct "Unknown"
    match findAsset image.filename with
    | none => some ⟨productTitle, image.filename, "Asset not found for: " ++ image.filename⟩
    | some asset =>
      match upd entryId asset.id with
      | Except.ok _ => none
      | Except.error e => some ⟨productTitle, image.filename, e⟩

/-- `processMappings`: fold over the entry groups, counting successes and
accumulating the per-item errors; every group is processed. -/
def processMappings (findAsset : String → Option AssetInfo)
    (upd : String → String → Except String Unit) (ms : List ImageMapping) : Report :=
  (entryGroups ms).foldl
    (fun rep g =>
      match processOne findAsset upd g.1 g.2 with
      | none => ⟨rep.successCount + 1, rep.errorCount, rep.errors⟩
      | some er => ⟨rep.successCount, rep.errorCount + 1, rep.errors ++ [er]⟩)
    ⟨0, 0, []⟩

/-! ## Lemmas: string infrastructure -/

theorem toList_mk (cs : List Char) : (String.mk cs).toList = cs := rfl

theorem mem_suffixes {t l : List Char} : t ∈ suffixes l ↔ t <:+ l := by
  induction l with
  | nil => simp [suffixes]
  | cons c rest ih =>
    simp only [suffixes, List.mem_cons, ih, List.suffix_cons_iff]

theorem isPrefixOf_append_self (l t : List Char) : l.isPrefixOf (l ++ t) = true := by
  induction l with
  | nil => cases t <;> rfl
  | cons c rest ih => simp [List.isPrefixOf, ih]

theorem strIncludes_of_mid (s sub : String) (h : sub.toList <:+: s.toList) :
    strIncludes s sub = true := by
  obtain ⟨u, v, huv⟩ := h
  refine List.any_eq_true.mpr ⟨sub.toList ++ v, ?_, ?_⟩
  · refine mem_suffixes.mpr ⟨u, ?_⟩
    rw [← huv, List.append_assoc]
  · exact isPrefixOf_append_self _ _

theorem splitCharAux_infix (sep : Char) :
    ∀ (l acc : List Char) (t : String),
      t ∈ splitCharAux sep l acc → t.toList <:+: (acc.reverse ++ l)
  | [], acc, t => by
    intro h
    simp only [splitCharAux, List.mem_singleton] at h
    subst h
    exact ⟨[], [], by simp⟩
  | c :: rest, acc, t => by
    intro h
    simp only [splitCharAux] at h
    by_cases hc : (c == sep) = true
    · rw [if_pos hc] at h
      rcases List.mem_cons.mp h with h1 | h2
      · subst h1
        exact ⟨[], c :: rest, by simp⟩
      · have hrec := splitCharAux_infix sep rest [] t h2
        simp only [List.reverse_nil, List.nil_append] at hrec
        exact hrec.trans ⟨acc.reverse ++ [c], [], by simp⟩
    · rw [if_neg hc] at h
      have hrec := splitCharAux_infix sep rest (c :: acc) t h
      simpa [List.append_assoc] using hrec

theorem splitChar_mem_infix (sep : Char) (s t : String) (h : t ∈ splitChar sep s) :
    t.toList <:+: s.toList := by
  have := splitCharAux_infix sep s.toList [] t h
  simpa using this

theorem splitWsGo_ne_nil : ∀ (l : List Char) (b : Bool) (acc : List Char),
    splitWsGo b acc l ≠ []
  | [], _, _ => by simp [splitWsGo]
  | c :: rest, b, acc => by
    simp only [splitWsGo]
    split_ifs
    · exact splitWsGo_ne_nil rest true []
    · simp
    · exact splitWsGo_ne_nil rest false (c :: acc)

theorem productKeywords_ne_nil (e : UniformEntry) : productKeywords e ≠ [] :=
  splitWsGo_ne_nil _ _ _

theorem filter_of_all {α : Type} (p : α → Bool) :
    ∀ (l : List α), (∀ a ∈ l, p a = true) → l.filter p = l
  | [], _ => rfl
  | a :: rest, h => by
    have ha := h a (List.mem_cons_self a rest)
    simp only [List.filter_cons, ha, if_true]
    rw [filter_of_all p rest (fun x hx => h x (List.mem_cons_of_mem a hx))]

/-! ## Lemmas: threshold guards of the matcher, bridged from rational
comparisons to natural-number comparisons -/

theorem matchScore_le (fl : String) (e : UniformEntry) :
    matchScore fl e ≤ (productKeywords e).length :=
  List.length_filter_le _ _

theorem reverseMatchScore_le (fl : String) (e : UniformEntry) :
    reverseMatchScore fl e ≤ (fileNameKeywords fl).length :=
  List.length_filter_le _ _

theorem guard1_iff (fl : String) (e : UniformEntry) :
    (0 < matchScore fl e ∧
      (3 : ℚ) / 10 < (matchScore fl e : ℚ) / ((productKeywords e).length : ℚ)) ↔
    (0 < matchScore fl e ∧
      3 * (productKeywords e).length < 10 * matchScore fl e) := by
  have hSL : matchScore fl e ≤ (productKeywords e).length := matchScore_le fl e
  constructor
  · rintro ⟨hS, hlt⟩
    refine ⟨hS, ?_⟩
    have hL : 0 < (productKeywords e).length := lt_of_lt_of_le hS hSL
    have hLq : (0 : ℚ) < ((productKeywords e).length : ℚ) := by exact_mod_cast hL
    rw [div_lt_div_iff₀ (by norm_num) hLq] at hlt
    have h2 : ((3 * (productKeywords e).length : Nat) : ℚ) <
        ((10 * matchScore fl e : Nat) : ℚ) := by push_cast; linarith
    exact_mod_cast h2
  · rintro ⟨hS, hlt⟩
    have hL : 0 < (productKeywords e).length := lt_of_lt_of_le hS hSL
    have hLq : (0 : ℚ) < ((productKeywords e).length : ℚ) := by exact_mod_cast hL
    refine ⟨hS, ?_⟩
    rw [div_lt_div_iff₀ (by norm_num) hLq]
    have h2 : ((3 * (productKeywords e).length : Nat) : ℚ) <
        ((10 * matchScore fl e : Nat) : ℚ) := by exact_mod_cast hlt
    push_cast at h2
    linarith

theorem guard2_iff (fl : String) (e : UniformEntry) :
    (0 < reverseMatchScore fl e ∧ 0 < (fileNameKeywords fl).length ∧
      (2 : ℚ) / 5 < (reverseMatchScore fl e : ℚ) / ((fileNameKeywords fl).length : ℚ)) ↔
    (0 < reverseMatchScore fl e ∧ 0 < (fileNameKeywords fl).length ∧
      2 * (fileNameKeywords fl).length < 5 * reverseMatchScore fl e) := by
  constructor
  · rintro ⟨hR, hF, hlt⟩
    refine ⟨hR, hF, ?_⟩
    have hFq : (0 : ℚ) < ((fileNameKeywords fl).length : ℚ) := by exact_mod_cast hF
    rw [div_lt_div_iff₀ (by norm_num) hFq] at hlt
    have h2 : ((2 * (fileNameKeywords fl).length : Nat) : ℚ) <
        ((5 * reverseMatchScore fl e : Nat) : ℚ) := by push_cast; linarith
    exact_mod_cast h2
  · rintro ⟨hR, hF, hlt⟩
    have hFq : (0 : ℚ) < ((fileNameKeywords fl).length : ℚ) := by exact_mod_cast hF
    refine ⟨hR, hF, ?_⟩
    rw [div_lt_div_iff₀ (by norm_num) hFq]
    have h2 : ((2 * (fileNameKeywords fl).length : Nat) : ℚ) <
        ((5 * reverseMatchScore fl e : Nat) : ℚ) := by exact_mod_cast hlt
    push_cast at h2
    linarith

/-! ## Lemmas: matchEntry and scanEntries -/

theorem matchEntry_fwd (ip fl : String) (e : UniformEntry)
    (h : 0 < matchScore fl e ∧ 3 * (productKeywords e).length < 10 * matchScore fl e) :
    matchEntry ip fl e = some ⟨ip, e._id, productName e,
      (matchScore fl e : ℚ) / ((productKeywords e).length : ℚ), MatchMethod.filename⟩ := by
  unfold matchEntry
  rw [if_pos ((guard1_iff fl e).mpr h)]

theorem matchEntry_none (ip fl : String) (e : UniformEntry)
    (h1 : ¬(0 < matchScore fl e ∧ 3 * (productKeywords e).length < 10 * matchScore fl e))
    (h2 : ¬(0 < reverseMatchScore fl e ∧ 0 < (fileNameKeywords fl).length ∧
      2 * (fileNameKeywords fl).length < 5 * reverseMatchScore fl e)) :
    matchEntry ip fl e = none := by
  unfold matchEntry
  rw [if_neg (fun hg => h1 ((guard1_iff fl e).mp hg)),
    if_neg (fun hg => h2 ((guard2_iff fl e).mp hg))]

theorem matchEntry_isSome_iff (ip fl : String) (e : UniformEntry) :
    (matchEntry ip fl e).isSome = true ↔
      ((0 < matchScore fl e ∧ 3 * (productKeywords e).length < 10 * matchScore fl e) ∨
       (0 < reverseMatchScore fl e ∧ 0 < (fileNameKeywords fl).length ∧
        2 * (fileNameKeywords fl).length < 5 * reverseMatchScore fl e)) := by
  unfold matchEntry
  split_ifs with hg1 hg2
  · simp only [Option.isSome_some, true_iff]
    exact Or.inl ((guard1_iff fl e).mp hg1)
  · simp only [Option.isSome_some, true_iff]
    exact Or.inr ((guard2_iff fl e).mp hg2)
  · simp only [Option.isSome_none, Bool.false_eq_true, false_iff]
    rintro (h | h)
    · exact hg1 ((guard1_iff fl e).mpr h)
    · exact hg2 ((guard2_iff fl e).mpr h)

theorem matchEntry_conf (ip fl : String) (e : UniformEntry) (m : ImageMatch)
    (h : matchEntry ip fl e = some m) : 0 < m.confidence ∧ m.confidence ≤ 1 := by
  unfold matchEntry at h
  split_ifs at h with hg1 hg2
  · obtain ⟨hS, _⟩ := hg1
    have hSL := matchScore_le fl e
    have hL : 0 < (productKeywords e).length := lt_of_lt_of_le hS hSL
    have hSq : (0 : ℚ) < (matchScore fl e : ℚ) := by exact_mod_cast hS
    have hLq : (0 : ℚ) < ((productKeywords e).length : ℚ) := by exact_mod_cast hL
    have hle : (matchScore fl e : ℚ) ≤ ((productKeywords e).length : ℚ) := by exact_mod_cast hSL
    have hm : m = ⟨ip, e._id, productName e,
        (matchScore fl e : ℚ) / ((productKeywords e).length : ℚ), MatchMethod.filename⟩ :=
      (Option.some.injEq _ _ ▸ h).symm
    rw [hm]
    exact ⟨div_pos hSq hLq, (div_le_one hLq).mpr hle⟩
  · obtain ⟨hR, hF, _⟩ := hg2
    have hRF := reverseMatchScore_le fl e
    have hRq : (0 : ℚ) < (reverseMatchScore fl e : ℚ) := by exact_mod_cast hR
    have hFq : (0 : ℚ) < ((fileNameKeywords fl).length : ℚ) := by exact_mod_cast hF
    have hle : (reverseMatchScore fl e : ℚ) ≤ ((fileNameKeywords fl).length : ℚ) := by
      exact_mod_cast hRF
    have hm : m = ⟨ip, e._id, productName e,
        (reverseMatchScore fl e : ℚ) / ((fileNameKeywords fl).length : ℚ),
        MatchMethod.filename⟩ := (Option.some.injEq _ _ ▸ h).symm
    rw [hm]
    exact ⟨div_pos hRq hFq, (div_le_one hFq).mpr hle⟩

theorem scanEntries_append_none (ip fl : String) (pre rest : List UniformEntry)
    (h : ∀ e2 ∈ pre, matchEntry ip fl e2 = none) :
    scanEntries ip fl (pre ++ rest) = scanEntries ip fl rest := by
  induction pre with
  | nil => rfl
  | cons e pre ih =>
    simp only [List.cons_append, scanEntries]
    rw [h e (List.mem_cons_self e pre)]
    exact ih (fun e2 he2 => h e2 (List.mem_cons_of_mem e he2))

theorem scanEntries_conf (ip fl : String) (es : List UniformEntry) (m : ImageMatch)
    (h : scanEntries ip fl es = some m) : 0 < m.confidence ∧ m.confidence ≤ 1 := by
  induction es with
  | nil => exact absurd h (by simp [scanEntries])
  | cons e rest ih =>
    simp only [scanEntries] at h
    cases he : matchEntry ip fl e with
    | some m2 =>
      rw [he] at h
      have hm : m2 = m := by
        simpa using h
      exact hm ▸ matchEntry_conf ip fl e m2 he
    | none =>
      rw [he] at h
      exact ih h

theorem matchEntry_dropPath (ip1 ip2 fl : String) (e : UniformEntry) :
    (matchEntry ip1 fl e).map dropPath = (matchEntry ip2 fl e).map dropPath := by
  unfold matchEntry
  split_ifs <;> rfl

theorem scanEntries_dropPath (ip1 ip2 fl : String) :
    ∀ (es : List UniformEntry),
      (scanEntries ip1 fl es).map dropPath = (scanEntries ip2 fl es).map dropPath
  | [] => rfl
  | e :: rest => by
    simp only [scanEntries]
    have h := matchEntry_dropPath ip1 ip2 fl e
    cases h1 : matchEntry ip1 fl e with
    | some m1 =>
      cases h2 : matchEntry ip2 fl e with
      | some m2 =>
        rw [h1, h2] at h
        simpa using h
      | none =>
        rw [h1, h2] at h
        simp at h
    | none =>
      cases h2 : matchEntry ip2 fl e with
      | some m2 =>
        rw [h1, h2] at h
        simp at h
      | none =>
        exact scanEntries_dropPath ip1 ip2 fl rest

/-! ## Lemmas: the semantic matcher -/

theorem matchImageWithAI_conf (hasKey : Bool) (resp : Option String)
    (productNames : List String) (nm : String) (c : ℚ)
    (h : matchImageWithAI hasKey resp productNames = some (nm, c)) :
    c = (8 : ℚ) / 10 ∧ nm ∈ productNames := by
  cases hasKey with
  | false => exact absurd h (by simp [matchImageWithAI])
  | true =>
    cases resp with
    | none => exact absurd h (by simp [matchImageWithAI])
    | some content =>
      simp only [matchImageWithAI, if_true] at h
      by_cases hcond : (toLowerCase (trimStr content) == "" ||
          toLowerCase (trimStr content) == "none") = true
      · rw [if_pos hcond] at h
        exact absurd h (by simp)
      · rw [if_neg hcond] at h
        cases hf : productNames.find?
            (fun pn => strIncludes (toLowerCase pn) (toLowerCase (trimStr content)) ||
              strIncludes (toLowerCase (trimStr content)) (toLowerCase pn)) with
        | some bestMatch =>
          rw [hf] at h
          simp only [Option.some.injEq, Prod.mk.injEq] at h
          exact ⟨h.2.symm, h.1 ▸ List.mem_of_find?_eq_some hf⟩
        | none =>
          rw [hf] at h
          exact absurd h (by simp)

theorem aiMatchOf_conf (ip : String) (entries : List UniformEntry) (hasKey : Bool)
    (resp : Option String) (m : ImageMatch)
    (h : aiMatchOf ip entries hasKey resp = some m) : m.confidence = (8 : ℚ) / 10 := by
  cases hasKey with
  | false => exact absurd h (by simp [aiMatchOf])
  | true =>
    simp only [aiMatchOf, if_true] at h
    cases ha : matchImageWithAI true resp (entries.map productName) with
    | none =>
      rw [ha] at h
      exact absurd h (by simp)
    | some pr =>
      rw [ha] at h
      obtain ⟨nm, c⟩ := pr
      have hc := (matchImageWithAI_conf true resp (entries.map productName) nm c ha).1
      dsimp only at h
      cases hfind : findEntryByName entries nm with
      | some entry =>
        rw [hfind] at h
        have hm : m = ⟨ip, entry._id, nm, c, MatchMethod.ai⟩ := by simpa using h.symm
        rw [hm, hc]
      | none =>
        rw [hfind] at h
        exact absurd h (by simp)

/-! ## Lemmas: the update executor loops -/

theorem isOkB_false_iff (r : UpdResp) : isOkB r = false ↔ r ≠ UpdResp.ok := by
  cases r <;> simp [isOkB]

theorem isOkB_true_iff (r : UpdResp) : isOkB r = true ↔ r = UpdResp.ok := by
  cases r <;> simp [isOkB]

theorem tryEndpoints_fst (send : Json → String → UpdResp) (p : Json) :
    ∀ (urls : List String) (last : String),
      (tryEndpoints send p urls last).1 = anyOk send p urls
  | [], last => by simp [tryEndpoints, anyOk]
  | u :: rest, last => by
    simp only [tryEndpoints, anyOk, List.any_cons]
    cases hsend : send p u with
    | ok => simp [isOkB]
    | fail m =>
      simp only [isOkB, Bool.false_or]
      exact tryEndpoints_fst send p rest m

theorem tryPayloads_fst (send : Json → String → UpdResp) :
    ∀ (ps : List Json) (urls : List String) (last : String),
      (tryPayloads send ps urls last).1 = ps.any (fun p => anyOk send p urls)
  | [], _, last => by simp [tryPayloads]
  | p :: ps, urls, last => by
    simp only [tryPayloads, List.any_cons]
    cases hv : anyOk send p urls with
    | true =>
      rw [show (tryEndpoints send p urls last).1 = true from (tryEndpoints_fst send p urls last).trans hv]
      simp
    | false =>
      rw [show (tryEndpoints send p urls last).1 = false from (tryEndpoints_fst send p urls last).trans hv]
      simp only [Bool.false_eq_true, if_false, Bool.false_or]
      exact tryPayloads_fst send ps urls _

theorem any_map_pair (send : Json → String → UpdResp) (p : Json) :
    ∀ (urls : List String),
      (urls.map (fun u => (p, u))).any (fun c => isOkB (send c.1 c.2)) =
        urls.any (fun u => isOkB (send p u))
  | [] => rfl
  | u :: rest => by
    simp only [List.map_cons, List.any_cons]
    rw [any_map_pair send p rest]

theorem allCombos_any (send : Json → String → UpdResp) :
    ∀ (ps : List Json) (urls : List String),
      (allCombos ps urls).any (fun c => isOkB (send c.1 c.2)) =
        ps.any (fun p => anyOk send p urls)
  | [], _ => rfl
  | p :: ps, urls => by
    simp only [allCombos, List.any_append, List.any_cons]
    rw [allCombos_any send ps urls, any_map_pair send p urls]
    rfl

theorem attemptedEndpoints_eq (send : Json → String → UpdResp) (p : Json) :
    ∀ (urls : List String),
      attemptedEndpoints send p urls = upToFirstOk send (urls.map (fun u => (p, u)))
  | [] => rfl
  | u :: rest => by
    simp only [attemptedEndpoints, List.map_cons, upToFirstOk]
    cases hsend : send p u <;> simp [hsend, attemptedEndpoints_eq send p rest]

theorem upToFirstOk_append_stop (send : Json → String → UpdResp) :
    ∀ (xs ys : List (Json × String)),
      xs.any (fun c => isOkB (send c.1 c.2)) = true →
      upToFirstOk send (xs ++ ys) = upToFirstOk send xs
  | [], _, h => by simp at h
  | c :: xs, ys, h => by
    simp only [List.cons_append, upToFirstOk]
    cases hsend : send c.1 c.2 with
    | ok => rfl
    | fail m =>
      simp only [List.any_cons, hsend, isOkB, Bool.false_or] at h
      exact congrArg (List.cons c) (upToFirstOk_append_stop send xs ys h)

theorem upToFirstOk_all_fail (send : Json → String → UpdResp) :
    ∀ (xs : List (Json × String)),
      (∀ c ∈ xs, isOkB (send c.1 c.2) = false) →
      upToFirstOk send xs = xs
  | [], _ => rfl
  | c :: xs, h => by
    simp only [upToFirstOk]
    have hc := h c (List.mem_cons_self c xs)
    cases hsend : send c.1 c.2 with
    | ok => rw [hsend] at hc; simp [isOkB] at hc
    | fail m =>
      rw [upToFirstOk_all_fail send xs (fun d hd => h d (List.mem_cons_of_mem c hd))]

theorem upToFirstOk_append_fail (send : Json → String → UpdResp) :
    ∀ (xs ys : List (Json × String)),
      (∀ c ∈ xs, isOkB (send c.1 c.2) = false) →
      upToFirstOk send (xs ++ ys) = xs ++ upToFirstOk send ys
  | [], _, _ => rfl
  | c :: xs, ys, h => by
    simp only [List.cons_append, upToFirstOk]
    have hc := h c (List.mem_cons_self c xs)
    cases hsend : send c.1 c.2 with
    | ok => rw [hsend] at hc; simp [isOkB] at hc
    | fail m =>
      exact congrArg (List.cons c)
        (upToFirstOk_append_fail send xs ys (fun d hd => h d (List.mem_cons_of_mem c hd)))

theorem attemptedCombos_eq (send : Json → String → UpdResp) :
    ∀ (ps : List Json) (urls : List String),
      attemptedCombos send ps urls = upToFirstOk send (allCombos ps urls)
  | [], _ => rfl
  | p :: ps, urls => by
    simp only [attemptedCombos, allCombos]
    cases hv : anyOk send p urls with
    | true =>
      have hany : (urls.map (fun u => (p, u))).any (fun c => isOkB (send c.1 c.2)) = true := by
        rw [any_map_pair send p urls]
        exact hv
      rw [if_pos rfl, upToFirstOk_append_stop send _ _ hany, attemptedEndpoints_eq,
        List.append_nil]
    | false =>
      have hall : ∀ c ∈ urls.map (fun u => (p, u)), isOkB (send c.1 c.2) = false := by
        intro c hc
        rw [List.mem_map] at hc
        obtain ⟨u, hu, rfl⟩ := hc
        have hv2 : urls.any (fun u2 => isOkB (send p u2)) = false := hv
        cases hb : isOkB (send p u) with
        | false => rfl
        | true =>
          have : urls.any (fun u2 => isOkB (send p u2)) = true :=
            List.any_eq_true.mpr ⟨u, hu, hb⟩
          rw [this] at hv2
          exact absurd hv2 (by simp)
      rw [if_neg (by simp), upToFirstOk_append_fail send _ _ hall,
        attemptedEndpoints_eq, upToFirstOk_all_fail send _ hall,
        attemptedCombos_eq send ps urls]

theorem tryEndpoints_snd_fail (send : Json → String → UpdResp) (p : Json) :
    ∀ (urls : List String) (last : String),
      (∀ u ∈ urls, isOkB (send p u) = false) →
      tryEndpoints send p urls last =
        (false, urls.foldl (fun _ u => errText (send p u)) last)
  | [], last, _ => rfl
  | u :: rest, last, h => by
    have hu := h u (List.mem_cons_self u rest)
    simp only [tryEndpoints, List.foldl_cons]
    cases hsend : send p u with
    | ok => rw [hsend] at hu; simp [isOkB] at hu
    | fail m =>
      dsimp only [errText]
      exact tryEndpoints_snd_fail send p rest m (fun v hv => h v (List.mem_cons_of_mem u hv))

theorem foldl_map_pair (send : Json → String → UpdResp) (p : Json) :
    ∀ (urls : List String) (last : String),
      (urls.map (fun u => (p, u))).foldl (fun _ c => errText (send c.1 c.2)) last =
        urls.foldl (fun _ u => errText (send p u)) last
  | [], _ => rfl
  | u :: rest, last => by
    simp only [List.map_cons, List.foldl_cons]
    exact foldl_map_pair send p rest _

theorem tryPayloads_snd_fail (send : Json → String → UpdResp) :
    ∀ (ps : List Json) (urls : List String) (last : String),
      (∀ c ∈ allCombos ps urls, isOkB (send c.1 c.2) = false) →
      tryPayloads send ps urls last =
        (false, (allCombos ps urls).foldl (fun _ c => errText (send c.1 c.2)) last)
  | [], _, last, _ => rfl
  | p :: ps, urls, last, h => by
    have hurls : ∀ u ∈ urls, isOkB (send p u) = false := by
      intro u hu
      refine h (p, u) ?_
      simp only [allCombos, List.mem_append, List.mem_map]
      exact Or.inl ⟨u, hu, rfl⟩
    have hrest : ∀ c ∈ allCombos ps urls, isOkB (send c.1 c.2) = false := by
      intro c hc
      refine h c ?_
      simp only [allCombos, List.mem_append]
      exact Or.inr hc
    simp only [tryPayloads, allCombos, List.foldl_append]
    rw [tryEndpoints_snd_fail send p urls last hurls]
    dsimp only
    rw [if_neg (show ¬(false = true) by simp)]
    rw [foldl_map_pair send p urls last]
    exact tryPayloads_snd_fail send ps urls _ hrest

/-! ## Lemmas: the batch fold of processMappings -/

theorem processFold (findAsset : String → Option AssetInfo)
    (upd : String → String → Except String Unit) :
    ∀ (gs : List (String × List ImageMapping)) (s e : Nat) (errs : List ErrRec),
      gs.foldl
        (fun (rep : Report) g =>
          match processOne findAsset upd g.1 g.2 with
          | none => ⟨rep.successCount + 1, rep.errorCount, rep.errors⟩
          | some er => ⟨rep.successCount, rep.errorCount + 1, rep.errors ++ [er]⟩)
        ⟨s, e, errs⟩ =
      (⟨s + (gs.filter (fun g => (processOne findAsset upd g.1 g.2).isNone)).length,
        e + (gs.filter (fun g => (processOne findAsset upd g.1 g.2).isSome)).length,
        errs ++ gs.filterMap (fun g => processOne findAsset upd g.1 g.2)⟩ : Report)
  | [], s, e, errs => by simp
  | g :: gs, s, e, errs => by
    simp only [List.foldl_cons, List.filter_cons, List.filterMap_cons]
    cases h : processOne findAsset upd g.1 g.2 with
    | none =>
      rw [processFold findAsset upd gs (s + 1) e errs]
      simp only [h, Option.isNone_none, Option.isSome_none, if_true,
        Bool.false_eq_true, if_false, List.length_cons]
      have h1 : s + 1 +
          (List.filter (fun g => (processOne findAsset upd g.1 g.2).isNone) gs).length =
          s + ((List.filter (fun g => (processOne findAsset upd g.1 g.2).isNone) gs).length + 1) := by
        omega
      rw [h1]
    | some er =>
      rw [processFold findAsset upd gs s (e + 1) (errs ++ [er])]
      simp only [h, Option.isNone_some, Option.isSome_some, if_true,
        Bool.false_eq_true, if_false, List.length_cons, List.append_assoc,
        List.singleton_append]
      have h1 : e + 1 +
          (List.filter (fun g => (processOne findAsset upd g.1 g.2).isSome) gs).length =
          e + ((List.filter (fun g => (processOne findAsset upd g.1 g.2).isSome) gs).length + 1) := by
        omega
      rw [h1]

theorem countSplit (findAsset : String → Option AssetInfo)
    (upd : String → String → Except String Unit) :
    ∀ (gs : List (String × List ImageMapping)),
      (gs.filter (fun g => (processOne findAsset upd g.1 g.2).isNone)).length +
        (gs.filter (fun g => (processOne findAsset upd g.1 g.2).isSome)).length = gs.length
  | [] => rfl
  | g :: gs => by
    simp only [List.filter_cons, List.length_cons]
    cases h : processOne findAsset upd g.1 g.2 with
    | none =>
      simp only [h, Option.isNone_none, Option.isSome_none, if_true,
        Bool.false_eq_true, if_false, List.length_cons]
      have := countSplit findAsset upd gs
      omega
    | some er =>
      simp only [h, Option.isNone_some, Option.isSome_some, if_true,
        Bool.false_eq_true, if_false, List.length_cons]
      have := countSplit findAsset upd gs
      omega

/-! ## Lemmas: JSON round trip of the mapping document -/

theorem decodeImage_encodeImage (m : ImageMapping) :
    decodeImage (encodeImage m) = some m := by
  obtain ⟨f, p, s, sp, eid⟩ := m
  cases sp <;> cases eid <;> rfl

theorem mapMO_map {α : Type} (enc : α → Json) (dec : Json → Option α)
    (h : ∀ x, dec (enc x) = some x) :
    ∀ (xs : List α), mapMO dec (xs.map enc) = some xs
  | [] => rfl
  | x :: xs => by
    simp only [List.map_cons, mapMO, h x]
    rw [mapMO_map enc dec h xs]
    rfl

theorem resolveFirst_eq_some {α : Type} (net : String → Option α) :
    ∀ (urls : List String) (u : String) (d : α),
      resolveFirst net urls = some (u, d) →
      ∃ pre post, urls = pre ++ u :: post ∧ (∀ v ∈ pre, net v = none) ∧ net u = some d
  | [], u, d => by
    intro h
    simp [resolveFirst] at h
  | v :: rest, u, d => by
    intro h
    simp only [resolveFirst] at h
    cases hv : net v with
    | some dd =>
      rw [hv] at h
      simp only [Option.some.injEq, Prod.mk.injEq] at h
      refine ⟨[], rest, by rw [h.1]; rfl, by simp, ?_⟩
      rw [← h.1, hv, h.2]
    | none =>
      rw [hv] at h
      obtain ⟨pre, post, heq, hpre, hu⟩ := resolveFirst_eq_some net rest u d h
      refine ⟨v :: pre, post, by rw [heq]; rfl, ?_, hu⟩
      intro w hw
      rcases List.mem_cons.mp hw with hw1 | hw2
      · rw [hw1]
        exact hv
      · exact hpre w hw2

/-! ## Claim C1 -/

/-- Claim C1 (counterexample): a record whose record-coverage score is
exactly 0.3 (3 of 10 keywords hit) is NOT accepted: the threshold
comparison in the source is strict (`confidence > 0.3`), so the claimed
inclusive boundary fails and the match returns nothing. -/
theorem c1_counterexample :
    (matchScore "aa-bb-cc" ⟨"r1", "aa bb cc dd ee ff gg hh ii jj", none⟩ : ℚ) /
        ((productKeywords ⟨"r1", "aa bb cc dd ee ff gg hh ii jj", none⟩).length : ℚ) = 3 / 10 ∧
    matchImageByFilename "aa-bb-cc.jpg" [⟨"r1", "aa bb cc dd ee ff gg hh ii jj", none⟩] = none := by
  constructor
  · have h1 : matchScore "aa-bb-cc" ⟨"r1", "aa bb cc dd ee ff gg hh ii jj", none⟩ = 3 := by decide
    have h2 : (productKeywords ⟨"r1", "aa bb cc dd ee ff gg hh ii jj", none⟩).length = 10 := by
      decide
    rw [h1, h2]
    norm_num
  · have hfl : toLowerCase (fileNameOf "aa-bb-cc.jpg") = "aa-bb-cc" := by decide
    unfold matchImageByFilename
    rw [hfl]
    simp only [scanEntries]
    rw [matchEntry_none "aa-bb-cc.jpg" "aa-bb-cc" ⟨"r1", "aa bb cc dd ee ff gg hh ii jj", none⟩
      (by decide) (by decide)]

/-- Claim C1 (amended): the record-coverage threshold of the keyword
matcher is strict (exclusive): for an image whose file name contributes no
image-coverage keywords, a single-record list is matched exactly when the
record-coverage score is strictly above 0.3 (equivalently
3·|keywords| < 10·score); a score of exactly 0.3 or of 0.29 is rejected. -/
theorem c1_thm (ip : String) (e : UniformEntry)
    (hrev : fileNameKeywords (toLowerCase (fileNameOf ip)) = []) :
    (matchImageByFilename ip [e]).isSome = true ↔
      (0 < matchScore (toLowerCase (fileNameOf ip)) e ∧
        3 * (productKeywords e).length < 10 * matchScore (toLowerCase (fileNameOf ip)) e) := by
  unfold matchImageByFilename
  have hiff := matchEntry_isSome_iff ip (toLowerCase (fileNameOf ip)) e
  cases hm : matchEntry ip (toLowerCase (fileNameOf ip)) e with
  | some m =>
    rw [hm] at hiff
    simp only [Option.isSome_some, true_iff] at hiff
    simp only [scanEntries, hm, Option.isSome_some, true_iff]
    rcases hiff with hfwd | hrev2
    · exact hfwd
    · exfalso
      rw [hrev] at hrev2
      simp at hrev2
  | none =>
    rw [hm] at hiff
    simp only [Option.isSome_none, Bool.false_eq_true, false_iff] at hiff
    simp only [scanEntries, hm, Option.isSome_none, Bool.false_eq_true, false_iff]
    intro hfwd
    exact hiff (Or.inl hfwd)

/-- Claim C1 (witness): the amended theorem applied at a concrete image
and record that clear the strict threshold. -/
theorem c1_witness :
    fileNameKeywords (toLowerCase (fileNameOf "aa-bb.jpg")) = [] ∧
      (matchImageByFilename "aa-bb.jpg" [⟨"r1", "aa bb", none⟩]).isSome = true :=
  ⟨by decide, (c1_thm "aa-bb.jpg" ⟨"r1", "aa bb", none⟩ (by decide)).mpr (by decide)⟩

/-! ## Claim C6 -/

/-- Claim C6 (counterexample): the scan is first-match-wins, so an image
whose normalized file name equals the second record name is matched to the
EARLIER record "chair" (id r0), not to the equal-named record r1. -/
theorem c6_counterexample :
    productKeywords ⟨"r1", "aarhus accent chair", none⟩ =
        splitChar '-' (toLowerCase (fileNameOf "aarhus-accent-chair.jpg")) ∧
    matchImageByFilename "aarhus-accent-chair.jpg"
        [⟨"r0", "chair", none⟩, ⟨"r1", "aarhus accent chair", none⟩] =
      some ⟨"aarhus-accent-chair.jpg", "r0", "chair", 1, MatchMethod.filename⟩ := by
  refine ⟨by decide, ?_⟩
  have hfl : toLowerCase (fileNameOf "aarhus-accent-chair.jpg") = "aarhus-accent-chair" := by
    decide
  unfold matchImageByFilename
  rw [hfl]
  simp only [scanEntries]
  rw [matchEntry_fwd "aarhus-accent-chair.jpg" "aarhus-accent-chair" ⟨"r0", "chair", none⟩
    ⟨by decide, by decide⟩]
  dsimp only
  have h1 : matchScore "aarhus-accent-chair" ⟨"r0", "chair", none⟩ = 1 := by decide
  have h2 : (productKeywords ⟨"r0", "chair", none⟩).length = 1 := by decide
  have h3 : productName ⟨"r0", "chair", none⟩ = "chair" := by decide
  rw [h1, h2, h3]
  norm_num

/-- Claim C6 (amended): if the normalized file name token list equals the
record name keyword list AND no earlier record in the list clears either
threshold, then match returns that record with confidence exactly 1 and
the keyword method tag. -/
theorem c6_thm (ip : String) (pre post : List UniformEntry) (e : UniformEntry)
    (hpre : ∀ e2 ∈ pre, matchEntry ip (toLowerCase (fileNameOf ip)) e2 = none)
    (heq : productKeywords e = splitChar '-' (toLowerCase (fileNameOf ip))) :
    matchImageByFilename ip (pre ++ e :: post) =
      some ⟨ip, e._id, productName e, 1, MatchMethod.filename⟩ := by
  have hall : ∀ kw ∈ productKeywords e,
      keywordHit (toLowerCase (fileNameOf ip)) kw = true := by
    intro kw hkw
    rw [heq] at hkw
    have hinf := splitChar_mem_infix '-' (toLowerCase (fileNameOf ip)) kw hkw
    have hin := strIncludes_of_mid (toLowerCase (fileNameOf ip)) kw hinf
    simp [keywordHit, hin]
  have hS : matchScore (toLowerCase (fileNameOf ip)) e = (productKeywords e).length := by
    unfold matchScore
    rw [filter_of_all _ _ hall]
  have hL : 0 < (productKeywords e).length :=
    List.length_pos.mpr (productKeywords_ne_nil e)
  unfold matchImageByFilename
  rw [scanEntries_append_none ip _ pre (e :: post) hpre]
  simp only [scanEntries]
  rw [matchEntry_fwd ip _ e ⟨by rw [hS]; exact hL, by rw [hS]; omega⟩]
  dsimp only
  rw [hS]
  have hno : ((productKeywords e).length : ℚ) ≠ 0 := by
    exact_mod_cast Nat.pos_iff_ne_zero.mp hL
  rw [div_self hno]

/-- Claim C6 (witness): the amended theorem applied with an empty earlier
segment. -/
theorem c6_witness :
    matchImageByFilename "aarhus-accent-chair.jpg" [⟨"r1", "aarhus accent chair", none⟩] =
      some ⟨"aarhus-accent-chair.jpg", "r1", "aarhus accent chair", 1, MatchMethod.filename⟩ :=
  c6_thm "aarhus-accent-chair.jpg" [] [] ⟨"r1", "aarhus accent chair", none⟩
    (by simp) (by decide)

/-! ## Claim C7 -/

/-- Claim C7: every match the per-image step of run() returns — through
the semantic path or the keyword path — has confidence strictly above 0
and at most 1. -/
theorem c7_thm :
    (∀ (ip : String) (entries : List UniformEntry) (hasKey : Bool)
        (resp : Option String) (m : ImageMatch),
        matchStep ip entries hasKey resp = some m →
        0 < m.confidence ∧ m.confidence ≤ 1) ∧
    (∀ (ip : String) (entries : List UniformEntry) (m : ImageMatch),
        matchImageByFilename ip entries = some m →
        0 < m.confidence ∧ m.confidence ≤ 1) := by
  have hkw : ∀ (ip : String) (entries : List UniformEntry) (m : ImageMatch),
      matchImageByFilename ip entries = some m →
      0 < m.confidence ∧ m.confidence ≤ 1 := by
    intro ip entries m h
    exact scanEntries_conf ip (toLowerCase (fileNameOf ip)) entries m h
  refine ⟨?_, hkw⟩
  intro ip entries hasKey resp m h
  unfold matchStep at h
  cases ha : aiMatchOf ip entries hasKey resp with
  | some m2 =>
    rw [ha] at h
    have hm : m2 = m := by simpa using h
    have hc := aiMatchOf_conf ip entries hasKey resp m2 ha
    rw [← hm, hc]
    norm_num
  | none =>
    rw [ha] at h
    exact hkw ip entries m h

/-- Claim C7 (witness): the theorem applied to a concrete semantic-path
match with confidence 0.8. -/
theorem c7_witness :
    0 < (ImageMatch.mk "z.jpg" "r9" "Sofa" ((8 : ℚ) / 10) MatchMethod.ai).confidence ∧
      (ImageMatch.mk "z.jpg" "r9" "Sofa" ((8 : ℚ) / 10) MatchMethod.ai).confidence ≤ 1 :=
  c7_thm.1 "z.jpg" [⟨"r9", "Sofa", none⟩] true (some "sofa") _ rfl

/-! ## Claim C8 -/

/-- Claim C8: the semantic matcher, when configured, is consulted first
and its hit short-circuits the keyword matcher with method tag `ai` and
fixed confidence 8/10; a failed call, a "none" answer or a missing
credential falls through to the keyword matcher without error. -/
theorem c8_thm :
    (∀ (resp : Option String) (productNames : List String) (nm : String) (c : ℚ),
        matchImageWithAI true resp productNames = some (nm, c) →
          c = (8 : ℚ) / 10 ∧ nm ∈ productNames) ∧
    (∀ (ip : String) (entries : List UniformEntry) (resp : Option String)
        (nm : String) (c : ℚ) (entry : UniformEntry),
        matchImageWithAI true resp (entries.map productName) = some (nm, c) →
        findEntryByName entries nm = some entry →
        matchStep ip entries true resp =
          some ⟨ip, entry._id, nm, c, MatchMethod.ai⟩) ∧
    (∀ (ip : String) (entries : List UniformEntry) (resp : Option String),
        matchImageWithAI true resp (entries.map productName) = none →
        matchStep ip entries true resp = matchImageByFilename ip entries) ∧
    (∀ (ip : String) (entries : List UniformEntry) (resp : Option String),
        matchStep ip entries false resp = matchImageByFilename ip entries) := by
  refine ⟨?_, ?_, ?_, ?_⟩
  · intro resp productNames nm c h
    exact matchImageWithAI_conf true resp productNames nm c h
  · intro ip entries resp nm c entry h1 h2
    unfold matchStep aiMatchOf
    rw [if_pos rfl, h1]
    dsimp only
    rw [h2]
  · intro ip entries resp h1
    unfold matchStep aiMatchOf
    rw [if_pos rfl, h1]
  · intro ip entries resp
    unfold matchStep aiMatchOf
    rw [if_neg (by simp)]

/-- Claim C8 (witness): the short-circuit conjunct applied at a concrete
semantic answer. -/
theorem c8_witness :
    matchStep "x.jpg" [⟨"r1", "Chair", none⟩] true (some "chair") =
      some ⟨"x.jpg", "r1", "Chair", (8 : ℚ) / 10, MatchMethod.ai⟩ :=
  c8_thm.2.1 "x.jpg" [⟨"r1", "Chair", none⟩] (some "chair") "Chair" ((8 : ℚ) / 10)
    ⟨"r1", "Chair", none⟩ rfl rfl

/-! ## Claim C10 -/

/-- Claim C10: the keyword matching decision depends only on the base
name of the image path and the record list: two image files with equal
base names — whatever their directories or byte sizes, and with no access
to the file contents — produce the same matched record id, record name,
confidence and method. -/
theorem c10_thm (f1 f2 : ImageFile) (entries : List UniformEntry)
    (h : baseName f1.path = baseName f2.path) :
    (matchImageFile f1 entries).map dropPath = (matchImageFile f2 entries).map dropPath := by
  unfold matchImageFile matchImageByFilename fileNameOf
  rw [h]
  exact scanEntries_dropPath f1.path f2.path _ entries

/-- Claim C10 (witness): the theorem applied to two files with the same
base name but different directories and sizes. -/
theorem c10_witness :
    (matchImageFile ⟨"/a/x.jpg", "x.jpg", 1⟩ [⟨"r1", "x", none⟩]).map dropPath =
      (matchImageFile ⟨"/b/x.jpg", "x.jpg", 999⟩ [⟨"r1", "x", none⟩]).map dropPath :=
  c10_thm ⟨"/a/x.jpg", "x.jpg", 1⟩ ⟨"/b/x.jpg", "x.jpg", 999⟩ [⟨"r1", "x", none⟩] (by decide)

/-! ## Claim C2 -/

/-- Claim C2 (counterexample): with an empty local mirror, a remote that
answers nothing and an update call that would always succeed, the one
mapped item is recorded as a per-item "Asset not found" error — the
executor has no upload fallback, so the claimed upload-and-use path does
not exist and the item does not succeed. -/
theorem c2_counterexample :
    processMappings
        (findAssetByFilename [] (fun _ => none) ["u1"])
        (fun _ _ => Except.ok ())
        [⟨"img.jpg", "/p/img.jpg", 5, some "P", some "e1"⟩] =
      ⟨0, 1, [⟨"P", "img.jpg", "Asset not found for: " ++ "img.jpg"⟩]⟩ := by
  rfl

/-- Claim C2 (amended): asset resolution order is local mirror first
(independent of the remote), then the remote asset-list search over the
endpoint candidates; when both fail, there is no upload fallback — the
item is recorded as a per-item "Asset not found" error, not fatal to the
run. -/
theorem c2_thm :
    (∀ (mirror : List AssetDescriptor) (net : String → Option (List RemoteAsset))
        (eps : List String) (fn : String) (a : AssetInfo),
        localFind mirror fn = some a → findAssetByFilename mirror net eps fn = some a) ∧
    (∀ (mirror : List AssetDescriptor) (net : String → Option (List RemoteAsset))
        (eps : List String) (fn : String),
        localFind mirror fn = none →
        findAssetByFilename mirror net eps fn = remoteFind net fn eps) ∧
    (∀ (mirror : List AssetDescriptor) (net : String → Option (List RemoteAsset))
        (eps : List String) (upd : String → String → Except String Unit)
        (eid : String) (img : ImageMapping) (rest : List ImageMapping),
        findAssetByFilename mirror net eps img.filename = none →
        processOne (findAssetByFilename mirror net eps) upd eid (img :: rest) =
          some ⟨jsOrO img.suggestedProduct "Unknown", img.filename,
                "Asset not found for: " ++ img.filename⟩) := by
  refine ⟨?_, ?_, ?_⟩
  · intro mirror net eps fn a h
    unfold findAssetByFilename
    rw [h]
  · intro mirror net eps fn h
    unfold findAssetByFilename
    rw [h]
  · intro mirror net eps upd eid img rest h
    simp only [processOne]
    rw [h]

/-- Claim C2 (witness): the local-first conjunct applied to a mirror
holding an exactly matching descriptor. -/
theorem c2_witness :
    findAssetByFilename [⟨"a1", "f", "img.jpg", "u"⟩] (fun _ => none) [] "img.jpg" =
      some ⟨"a1", "img.jpg", "u"⟩ :=
  c2_thm.1 [⟨"a1", "f", "img.jpg", "u"⟩] (fun _ => none) [] "img.jpg"
    ⟨"a1", "img.jpg", "u"⟩ rfl

/-! ## Claim C4 -/

/-- Claim C4: the endpoint candidate loop tries candidates strictly in
the supplied order and returns on the first success: with candidates
[A (fail), B (success), C (success)] the resolved pair is B with its
body, exactly A and B are requested, and C is never requested. -/
theorem c4_thm {α : Type} (net : String → Option α) (A B C : String) (d e : α)
    (hA : net A = none) (hB : net B = some d) (_hC : net C = some e)
    (hCA : C ≠ A) (hCB : C ≠ B) :
    resolveFirst net [A, B, C] = some (B, d) ∧
    probedUrls net [A, B, C] = [A, B] ∧
    C ∉ probedUrls net [A, B, C] ∧
    (∀ (urls : List String) (u : String) (du : α),
      resolveFirst net urls = some (u, du) →
      ∃ pre post, urls = pre ++ u :: post ∧ (∀ v ∈ pre, net v = none) ∧ net u = some du) := by
  have h1 : resolveFirst net [A, B, C] = some (B, d) := by
    simp only [resolveFirst, hA, hB]
  have h2 : probedUrls net [A, B, C] = [A, B] := by
    simp only [probedUrls, hA, hB]
  refine ⟨h1, h2, ?_, fun urls u du h => resolveFirst_eq_some net urls u du h⟩
  rw [h2]
  simp [hCA, hCB]

/-- Claim C4 (witness): the theorem applied to a concrete candidate
triple where only the first candidate fails. -/
theorem c4_witness :
    resolveFirst (fun u => if u == "A" then (none : Option Nat) else some 7) ["A", "B", "C"] =
        some ("B", 7) ∧
    probedUrls (fun u => if u == "A" then (none : Option Nat) else some 7) ["A", "B", "C"] =
        ["A", "B"] ∧
    "C" ∉ probedUrls (fun u => if u == "A" then (none : Option Nat) else some 7) ["A", "B", "C"] := by
  have h := c4_thm (fun u => if u == "A" then (none : Option Nat) else some 7) "A" "B" "C" 7 7
    rfl rfl rfl (by decide) (by decide)
  exact ⟨h.1, h.2.1, h.2.2.1⟩

/-! ## Claim C5 -/

/-- Claim C5: the apply phase processes every entry group to completion:
the success and error tallies sum to the number of groups, every
recorded error is exactly the per-group outcome, and the success count is
the number of groups whose own processing succeeds — so one group's
failure never suppresses the processing of any other group. -/
theorem c5_thm (findAsset : String → Option AssetInfo)
    (upd : String → String → Except String Unit) (ms : List ImageMapping) :
    (processMappings findAsset upd ms).successCount + (processMappings findAsset upd ms).errorCount
        = (entryGroups ms).length ∧
    (processMappings findAsset upd ms).errors =
        (entryGroups ms).filterMap (fun g => processOne findAsset upd g.1 g.2) ∧
    (processMappings findAsset upd ms).successCount =
        ((entryGroups ms).filter (fun g => (processOne findAsset upd g.1 g.2).isNone)).length := by
  unfold processMappings
  rw [processFold findAsset upd (entryGroups ms) 0 0 []]
  refine ⟨?_, ?_, ?_⟩
  · dsimp only
    rw [Nat.zero_add, Nat.zero_add]
    exact countSplit findAsset upd (entryGroups ms)
  · dsimp only
    rw [List.nil_append]
  · dsimp only
    rw [Nat.zero_add]

/-! ## Claim C9 -/

/-- Claim C9: the mapping document round-trips losslessly: decoding the
encoded document returns exactly the original structure — every field of
every image entry (filename, path, size, suggestedProduct, entryId,
including null values) and the instruction list come back unchanged. -/
theorem c9_thm (d : MappingDoc) : decodeMappingDoc (encodeMappingDoc d) = some d := by
  obtain ⟨images, instructions⟩ := d
  have h1 : lookupField
      [("images", Json.arr (images.map encodeImage)),
       ("instructions", Json.arr (instructions.map Json.str))] "images" =
      some (Json.arr (images.map encodeImage)) := rfl
  have h2 : lookupField
      [("images", Json.arr (images.map encodeImage)),
       ("instructions", Json.arr (instructions.map Json.str))] "instructions" =
      some (Json.arr (instructions.map Json.str)) := rfl
  simp only [encodeMappingDoc, decodeMappingDoc, h1, h2,
    mapMO_map encodeImage decodeImage decodeImage_encodeImage images,
    mapMO_map Json.str decodeStr (fun s => rfl) instructions]

/-! ## Claim C3 -/

/-- Claim C3: an update that is rejected for the first payload shapes but
accepted for the third is recorded as a success; the nested loops attempt
exactly the (payload, endpoint) pairs up to and including the first
success, skipping all later candidates; the operation raises an error
exactly when every combination fails, and the raised error carries the
error text of the last attempted combination. -/
theorem c3_thm :
    (∀ (send : Json → String → UpdResp) (entryFields : List (String × Json))
        (assetId locale entryId : String) (urls : List String),
        (∀ u ∈ urls, send (payloadFull entryFields assetId locale) u ≠ UpdResp.ok) →
        (∀ u ∈ urls, send (payloadBare assetId locale) u ≠ UpdResp.ok) →
        (∃ u ∈ urls, send (payloadMinimal assetId locale) u = UpdResp.ok) →
        updateEntryWithAsset send entryId assetId locale entryFields urls = Except.ok ()) ∧
    (∀ (send : Json → String → UpdResp) (ps : List Json) (urls : List String),
        attemptedCombos send ps urls = upToFirstOk send (allCombos ps urls)) ∧
    (∀ (send : Json → String → UpdResp) (entryFields : List (String × Json))
        (assetId locale entryId : String) (urls : List String),
        (∃ msg, updateEntryWithAsset send entryId assetId locale entryFields urls =
            Except.error msg) ↔
          ∀ c ∈ allCombos (updatePayloads entryFields assetId locale) urls,
            send c.1 c.2 ≠ UpdResp.ok) ∧
    (∀ (send : Json → String → UpdResp) (entryFields : List (String × Json))
        (assetId locale entryId : String) (urls : List String)
        (cs : List (Json × String)) (c : Json × String),
        allCombos (updatePayloads entryFields assetId locale) urls = cs ++ [c] →
        (∀ c2 ∈ allCombos (updatePayloads entryFields assetId locale) urls,
            send c2.1 c2.2 ≠ UpdResp.ok) →
        updateEntryWithAsset send entryId assetId locale entryFields urls =
          Except.error ("Failed to update entry " ++ entryId ++ " with asset " ++ assetId ++
            ". Last error: " ++ errText (send c.1 c.2))) := by
  refine ⟨?_, ?_, ?_, ?_⟩
  · intro send f a l eid urls h1 h2 h3
    obtain ⟨u, hu, hok⟩ := h3
    simp only [updateEntryWithAsset]
    have hany : (updatePayloads f a l).any (fun p => anyOk send p urls) = true := by
      apply List.any_eq_true.mpr
      refine ⟨payloadMinimal a l, ?_, ?_⟩
      · simp [updatePayloads]
      · exact List.any_eq_true.mpr ⟨u, hu, (isOkB_true_iff _).mpr hok⟩
    rw [tryPayloads_fst send (updatePayloads f a l) urls "", hany]
    rfl
  · intro send ps urls
    exact attemptedCombos_eq send ps urls
  · intro send f a l eid urls
    simp only [updateEntryWithAsset]
    constructor
    · rintro ⟨msg, hmsg⟩ c hc hok
      by_cases hcond : (tryPayloads send (updatePayloads f a l) urls "").1 = true
      · rw [if_pos hcond] at hmsg
        exact absurd hmsg (by simp)
      · have hany : (updatePayloads f a l).any (fun p => anyOk send p urls) = true := by
          rw [← allCombos_any send]
          exact List.any_eq_true.mpr ⟨c, hc, (isOkB_true_iff _).mpr hok⟩
        rw [tryPayloads_fst send (updatePayloads f a l) urls ""] at hcond
        exact hcond hany
    · intro hall
      have hfst : (tryPayloads send (updatePayloads f a l) urls "").1 = false := by
        rw [tryPayloads_fst send (updatePayloads f a l) urls "", ← allCombos_any send]
        cases hres : (allCombos (updatePayloads f a l) urls).any
            (fun c => isOkB (send c.1 c.2)) with
        | false => rfl
        | true =>
          obtain ⟨c, hc, hok⟩ := List.any_eq_true.mp hres
          exact absurd ((isOkB_true_iff _).mp hok) (hall c hc)
      rw [hfst]
      rw [if_neg (by simp)]
      exact ⟨_, rfl⟩
  · intro send f a l eid urls cs c hsplit hall
    have hallB : ∀ c2 ∈ allCombos (updatePayloads f a l) urls, isOkB (send c2.1 c2.2) = false :=
      fun c2 hc2 => (isOkB_false_iff _).mpr (hall c2 hc2)
    simp only [updateEntryWithAsset]
    rw [tryPayloads_snd_fail send (updatePayloads f a l) urls "" hallB]
    dsimp only
    rw [if_neg (by simp)]
    rw [hsplit]
    simp only [List.foldl_append, List.foldl_cons, List.foldl_nil]

/-- Claim C3 (witness): the success conjunct applied to a send function
that rejects the first two payload shapes and accepts the third. -/
theorem c3_witness :
    updateEntryWithAsset
      (fun p _ => match p with
        | Json.obj [("fields", Json.obj [("image", _)])] => UpdResp.ok
        | _ => UpdResp.fail "400: Bad Request")
      "e1" "a1" "en-US" [("name", Json.str "n")] ["u"] = Except.ok () :=
  c3_thm.1
    (fun p _ => match p with
      | Json.obj [("fields", Json.obj [("image", _)])] => UpdResp.ok
      | _ => UpdResp.fail "400: Bad Request")
    [("name", Json.str "n")] "a1" "en-US" "e1" ["u"]
    (by decide) (by decide) (by decide)
